import Mathlib

/-!
Verification of the differentially-private covariance engine described by the
repository's specification, as exercised by `src/analysis/covariance.ipynb`.

The notebook drives the engine through `wn.dp_covariance` (scalar, matrix and
cross modes) inside a `wn.Analysis` session and then post-processes the
released covariance matrix into a correlation matrix (`dp_corr`) and a
regression coefficient (`beta_hat_dp`).  The engine itself (sensitivity
calculation, noise allocation, privacy accounting, session state machine) is
an external dependency whose behaviour the specification pins down, so those
components are modelled from the specification; the post-processing lines are
embedded directly from the notebook's numpy expressions.

All statistics are modelled over `ℚ` (exact arithmetic).  The numpy
post-processing additionally needs IEEE-754 special values (`NaN`, `±∞`),
which are modelled by the inductive type `FV` below: a rational carrier with
explicit infinities and NaN, following the IEEE classification rules for
multiplication, division and square root.  Rounding of finite magnitudes is
not modelled; none of the properties proved here depend on it (they concern
only NaN/infinity classification, sign, symmetry and determinism).
-/

/-- Modelled from the spec: the error kinds of §7 (ERROR HANDLING DESIGN). -/
inductive DPError where
  | InvalidBounds
  | NonPositiveN
  | NonPositiveEpsilon
  | DimensionMismatch
  | ConfigurationError
  | BudgetExceeded
  | SessionAlreadyReleased
  | DoubleReleaseError
deriving DecidableEq, Repr

/-- Modelled from the spec: §4.1 SensitivityCalculator.  Given inclusive
bounds `[loI, hiI]`, `[loJ, hiJ]` and a row count `n`, returns the
sensitivity `(hiI - loI) * (hiJ - loJ) / (n - 1)` of the sample covariance
cell; fails with `InvalidBounds` when some `hi ≤ lo` and with `NonPositiveN`
when `n ≤ 1`. -/
def sensitivity (loI hiI loJ hiJ : ℚ) (n : ℕ) : Except DPError ℚ :=
  if hiI ≤ loI ∨ hiJ ≤ loJ then .error .InvalidBounds
  else if n ≤ 1 then .error .NonPositiveN
  else .ok ((hiI - loI) * (hiJ - loJ) / ((n : ℚ) - 1))

/-- Clamping a raw value into the declared inclusive range (spec §3, GLOSSARY:
values outside `[lower, upper]` are clamped before any statistic). -/
def clamp (lo hi x : ℚ) : ℚ := max lo (min hi x)

/-- Mean of a column of values. -/
def colMean (xs : List ℚ) : ℚ := xs.sum / (xs.length : ℚ)

/-- Sample covariance `Σ (x - x̄)(y - ȳ) / (n - 1)` of two columns
(spec §4.3: means are the clamped-sample means). -/
def sampleCov (xs ys : List ℚ) : ℚ :=
  (List.zipWith (fun x y => (x - colMean xs) * (y - colMean ys)) xs ys).sum
    / ((xs.length : ℚ) - 1)

/-- A column clamped to its declared bounds (spec §4.3: clamping is applied
before any aggregate is formed). -/
def clampedCol (lo hi : ℚ) (xs : List ℚ) : List ℚ := xs.map (clamp lo hi)

/-- Column `i` of a dataset given as a list of rows (the notebook passes one
data matrix, e.g. `wn_data['age', 'income']`, so every column has the same
row count by construction). -/
def matrixCols (K : ℕ) (rows : List (Fin K → ℚ)) (i : Fin K) : List ℚ :=
  rows.map (fun r => r i)

/-- Modelled from the spec: §4.3 `computeMatrix` over a dataset of `K`
columns.  The true `K×K` sample covariance matrix is computed from the
clamped columns; one noise value is drawn per unique unordered cell of the
upper triangle (including the diagonal) — `noise i j` with `i ≤ j` — and
mirrored into both `(i, j)` and `(j, i)`. -/
def computeMatrix (K : ℕ) (lo hi : Fin K → ℚ) (rows : List (Fin K → ℚ))
    (noise : Fin K → Fin K → ℚ) : Fin K → Fin K → ℚ :=
  fun i j =>
    if i ≤ j then
      sampleCov (clampedCol (lo i) (hi i) (matrixCols K rows i))
                (clampedCol (lo j) (hi j) (matrixCols K rows j))
        + noise i j
    else
      sampleCov (clampedCol (lo i) (hi i) (matrixCols K rows i))
                (clampedCol (lo j) (hi j) (matrixCols K rows j))
        + noise j i

/-- Modelled from the spec: §4.3 `computeCross` over a left dataset of `L`
columns and a right dataset of `R` columns.  Cell `(i, j)` is the covariance
of left column `i` with right column `j`, and one independent noise value is
drawn for each of the `L·R` ordered cells. -/
def computeCross (L R : ℕ) (llo lup : Fin L → ℚ) (rlo rup : Fin R → ℚ)
    (lrows : List (Fin L → ℚ)) (rrows : List (Fin R → ℚ))
    (noise : Fin L → Fin R → ℚ) : Fin L → Fin R → ℚ :=
  fun i j =>
    sampleCov (clampedCol (llo i) (lup i) (matrixCols L lrows i))
              (clampedCol (rlo j) (rup j) (matrixCols R rrows j))
      + noise i j

/-- Modelled from the spec: the set of unique unordered cells of a `K×K`
matrix — the upper triangle including the diagonal. -/
def uniqueCells (K : ℕ) : Finset (Fin K × Fin K) :=
  Finset.univ.filter (fun p => p.1 ≤ p.2)

/-- Modelled from the spec: §4.3 `computeMatrix` allocates `ε` evenly across
the `K(K+1)/2` unique unordered cells. -/
def matrixCellEps (K : ℕ) (eps : ℚ) : ℚ := eps / ((K * (K + 1) / 2 : ℕ) : ℚ)

/-- Modelled from the spec: §4.3 `computeCross` allocates `ε` evenly across
all `L·R` ordered cells. -/
def crossCellEps (L R : ℕ) (eps : ℚ) : ℚ := eps / ((L * R : ℕ) : ℚ)

/-- Modelled from the spec: the total epsilon spent by a Matrix release is
the sum of the per-cell allocations over the unique unordered cells. -/
def matrixEpsSpent (K : ℕ) (eps : ℚ) : ℚ :=
  ∑ _p ∈ uniqueCells K, matrixCellEps K eps

/-- Modelled from the spec: the total epsilon spent by a Cross release is the
sum of the per-cell allocations over all ordered cells. -/
def crossEpsSpent (L R : ℕ) (eps : ℚ) : ℚ :=
  ∑ _p ∈ (Finset.univ : Finset (Fin L × Fin R)), crossCellEps L R eps

/-- The number of unique unordered cells of a `K×K` matrix is `K(K+1)/2`. -/
theorem uniqueCells_card (K : ℕ) : (uniqueCells K).card = K * (K + 1) / 2 := by
  have h1 : (uniqueCells K).card
      = Fintype.card {p : Fin K × Fin K // p.1 ≤ p.2} :=
    (Fintype.card_subtype _).symm
  have h2 : Fintype.card {p : Fin K × Fin K // p.1 ≤ p.2}
      = Fintype.card (Sym2 (Fin K)) :=
    (Fintype.card_congr Sym2.sortEquiv).symm
  have h3 : Fintype.card (Sym2 (Fin K)) = (Fintype.card (Fin K) + 1).choose 2 :=
    Sym2.card
  rw [h1, h2, h3, Fintype.card_fin, Nat.choose_two_right,
    Nat.add_sub_cancel, Nat.mul_comm]

/-- Modelled from the spec: §4.4 PrivacyAccountant state — an optional global
cap, the list of added node epsilons, and the cumulative expenditure under
basic sequential composition. -/
structure Accountant where
  cap : Option ℚ
  nodes : List ℚ
  cumulative : ℚ
deriving DecidableEq, Repr

/-- Modelled from the spec: §4.4 `addNode`.  Validates `epsilon > 0`; if a
global cap is configured and `cumulative + epsilon` exceeds it, fails with
`BudgetExceeded` and returns the accountant unchanged (no partial mutation);
otherwise appends the node and updates `cumulative`.  The result pairs an
optional error with the post-call accountant state. -/
def addNode (a : Accountant) (eps : ℚ) : Option DPError × Accountant :=
  if eps ≤ 0 then (some .NonPositiveEpsilon, a)
  else
    match a.cap with
    | some c =>
      if c < a.cumulative + eps then (some .BudgetExceeded, a)
      else (none, { a with nodes := a.nodes ++ [eps],
                           cumulative := a.cumulative + eps })
    | none => (none, { a with nodes := a.nodes ++ [eps],
                              cumulative := a.cumulative + eps })

/-- Modelled from the spec: §4.4 `totalSpent` — current cumulative
expenditure (sum of all node epsilons). -/
def totalSpent (a : Accountant) : ℚ := a.cumulative

/-- Modelled from the spec: §4.5 AnalysisSession states
`Building → Released` (terminal). -/
inductive SessionState where
  | Building
  | Released
deriving DecidableEq, Repr

/-- Modelled from the spec: §3 AnalysisGraph / §4.5 AnalysisSession — the
session state flag, the privacy accountant, the ordered pending request
nodes, and (after release) the produced Release objects. -/
structure Session (α β : Type) where
  state : SessionState
  acct : Accountant
  pending : List α
  releases : List β
deriving DecidableEq, Repr

/-- Modelled from the spec: §4.5 `addRequest` — only legal in `Building`
(fails with `SessionAlreadyReleased` in `Released`); delegates to
`PrivacyAccountant.addNode` and appends the node on success. -/
def addRequest {α β : Type} (epsOf : α → ℚ) (s : Session α β) (req : α) :
    Option DPError × Session α β :=
  match s.state with
  | .Released => (some .SessionAlreadyReleased, s)
  | .Building =>
    match addNode s.acct (epsOf req) with
    | (some e, _) => (some e, s)
    | (none, a2) => (none, { s with acct := a2, pending := s.pending ++ [req] })

/-- Modelled from the spec: §4.5 — evaluation of every pending node in order,
collecting all Release objects, short-circuiting on the first failure. -/
def evalAll {α β : Type} (f : α → Except DPError β) :
    List α → Except DPError (List β)
  | [] => .ok []
  | r :: rest =>
    match f r with
    | .error e => .error e
    | .ok b =>
      match evalAll f rest with
      | .error e => .error e
      | .ok bs => .ok (b :: bs)

/-- Modelled from the spec: §4.5 `release()` — only legal in `Building`
(fails with `DoubleReleaseError` in `Released`); evaluates every pending node,
and on success transitions atomically to `Released` with the collected
Release objects; on any node's evaluation failure the whole operation fails
and the session is returned unchanged. -/
def release {α β : Type} (f : α → Except DPError β) (s : Session α β) :
    Option DPError × Session α β :=
  match s.state with
  | .Released => (some .DoubleReleaseError, s)
  | .Building =>
    match evalAll f s.pending with
    | .error e => (some e, s)
    | .ok rs => (none, { s with state := .Released, releases := rs })

/-- A binary64 value as used by the notebook's numpy post-processing,
modelled as an exact rational together with the IEEE-754 special values:
`fin q` is a finite value, `inf b` is `+∞` (`b = true`) or `-∞`
(`b = false`), and `nan` is Not-a-Number.  Signed zero and rounding of
finite magnitudes are not modelled. -/
inductive FV where
  | fin : ℚ → FV
  | inf : Bool → FV
  | nan : FV
deriving DecidableEq, Repr

/-- Whether a modelled binary64 value is NaN. -/
def FV.isNaN : FV → Bool
  | .nan => true
  | _ => false

/-- IEEE-754 multiplication on modelled binary64 values: NaN propagates,
`0 × ∞ = NaN`, infinities multiply by sign. -/
def fmul : FV → FV → FV
  | .nan, _ => .nan
  | _, .nan => .nan
  | .fin a, .fin b => .fin (a * b)
  | .fin a, .inf s => if a = 0 then .nan else .inf (decide (0 < a) == s)
  | .inf s, .fin b => if b = 0 then .nan else .inf (s == decide (0 < b))
  | .inf s, .inf t => .inf (s == t)

/-- IEEE-754 division on modelled binary64 values: NaN propagates,
`0 / 0 = NaN`, nonzero `/ 0` is a signed infinity (zero taken as `+0`),
finite `/ ∞ = 0`, `∞ / ∞ = NaN`. -/
def fdiv : FV → FV → FV
  | .nan, _ => .nan
  | _, .nan => .nan
  | .fin a, .fin b =>
    if b = 0 then (if a = 0 then .nan else .inf (decide (0 < a)))
    else .fin (a / b)
  | .fin _, .inf _ => .fin 0
  | .inf s, .fin b => .inf (s == decide (0 ≤ b))
  | .inf _, .inf _ => .nan

/-- IEEE-754 square root on modelled binary64 values (`np.sqrt`): NaN on NaN
and on any negative argument, `+∞` on `+∞`.  The nonnegative finite branch is
abstracted by the parameter `sq`, since exact binary64 square-root magnitudes
are irrational in general and no property proved here depends on them. -/
def fsqrt (sq : ℚ → ℚ) : FV → FV
  | .nan => .nan
  | .inf s => if s then .inf true else .nan
  | .fin a => if a < 0 then .nan else .fin (sq a)

/-- The notebook's correlation post-processing (cell computing `dp_corr`):
`dp_corr = dp_cov / np.outer(np.sqrt(np.diag(dp_cov)), np.sqrt(np.diag(dp_cov)))`,
i.e. entrywise `corr[i][j] = cov[i][j] / (sqrt(cov[i][i]) * sqrt(cov[j][j]))`. -/
def dp_corr (sq : ℚ → ℚ) (K : ℕ) (cov : Fin K → Fin K → FV) :
    Fin K → Fin K → FV :=
  fun i j => fdiv (cov i j) (fmul (fsqrt sq (cov i i)) (fsqrt sq (cov j j)))

/-- The notebook's regression-coefficient post-processing
(`beta_hat_dp = dp_cov[2,3] / dp_cov[2,2]`), an unguarded division of the
released covariance cell by the released (noised) variance cell. -/
def beta_hat_dp (cov : Fin 5 → Fin 5 → FV) : FV :=
  fdiv (cov 2 3) (cov 2 2)

/-- Sample covariance is symmetric in its two columns when they have the same
length (as all columns of one dataset do). -/
theorem sampleCov_comm (xs ys : List ℚ) (h : xs.length = ys.length) :
    sampleCov xs ys = sampleCov ys xs := by
  unfold sampleCov
  rw [h, List.zipWith_comm]
  have hf : (fun (b : ℚ) (a : ℚ) => (a - colMean xs) * (b - colMean ys))
      = fun (y : ℚ) (x : ℚ) => (y - colMean ys) * (x - colMean xs) := by
    funext a b
    ring
  rw [hf]

/-- Clamping a column preserves its length. -/
theorem clampedCol_length (lo hi : ℚ) (xs : List ℚ) :
    (clampedCol lo hi xs).length = xs.length := by
  simp [clampedCol]

/-- Every column of a row-list dataset has the dataset's row count. -/
theorem matrixCols_length (K : ℕ) (rows : List (Fin K → ℚ)) (i : Fin K) :
    (matrixCols K rows i).length = rows.length := by
  simp [matrixCols]

/-- C1.  For every input column set and every run (every noise assignment),
the matrix produced by `computeMatrix` is exactly symmetric:
`result i j = result j i` for all `i, j`, because one noise value is drawn
per unique unordered cell of the upper triangle (including the diagonal) and
mirrored into both `(i, j)` and `(j, i)`; symmetry holds by construction,
independent of input data. -/
theorem computeMatrix_symmetric (K : ℕ) (lo hi : Fin K → ℚ)
    (rows : List (Fin K → ℚ)) (noise : Fin K → Fin K → ℚ) (i j : Fin K) :
    computeMatrix K lo hi rows noise i j = computeMatrix K lo hi rows noise j i := by
  have hlen : (clampedCol (lo i) (hi i) (matrixCols K rows i)).length
      = (clampedCol (lo j) (hi j) (matrixCols K rows j)).length := by
    rw [clampedCol_length, clampedCol_length, matrixCols_length, matrixCols_length]
  have hc := sampleCov_comm _ _ hlen
  unfold computeMatrix
  by_cases hij : i ≤ j
  · by_cases hji : j ≤ i
    · have hij2 : i = j := le_antisymm hij hji
      subst hij2
      rfl
    · simp only [if_pos hij, if_neg hji]
      rw [hc]
  · have hji : j ≤ i := le_of_not_le hij
    simp only [if_neg hij, if_pos hji]
    rw [hc]

/-- C2.  For all declared bounds and every row count `n > 1`, the
SensitivityCalculator returns `(hiI - loI) * (hiJ - loJ) / (n - 1)` (reducing
to `(hi - lo)^2 / (n - 1)` on the diagonal), fails with `InvalidBounds` when
some `hi ≤ lo`, and fails with `NonPositiveN` when the bounds are valid but
`n ≤ 1`. -/
theorem sensitivity_spec (loI hiI loJ hiJ : ℚ) (n : ℕ) :
    (loI < hiI → loJ < hiJ → 1 < n →
      sensitivity loI hiI loJ hiJ n
        = .ok ((hiI - loI) * (hiJ - loJ) / ((n : ℚ) - 1)))
    ∧ (loI < hiI → 1 < n →
      sensitivity loI hiI loI hiI n = .ok ((hiI - loI) ^ 2 / ((n : ℚ) - 1)))
    ∧ ((hiI ≤ loI ∨ hiJ ≤ loJ) →
      sensitivity loI hiI loJ hiJ n = .error .InvalidBounds)
    ∧ (loI < hiI → loJ < hiJ → n ≤ 1 →
      sensitivity loI hiI loJ hiJ n = .error .NonPositiveN) := by
  refine ⟨?_, ?_, ?_, ?_⟩
  · intro h1 h2 h3
    rw [sensitivity, if_neg, if_neg]
    · omega
    · push_neg
      exact ⟨h1, h2⟩
  · intro h1 h3
    rw [sensitivity, if_neg, if_neg]
    · have : (hiI - loI) * (hiI - loI) = (hiI - loI) ^ 2 := by ring
      rw [this]
    · omega
    · push_neg
      exact ⟨h1, h1⟩
  · intro h
    rw [sensitivity, if_pos h]
  · intro h1 h2 h3
    rw [sensitivity, if_neg, if_pos h3]
    push_neg
    exact ⟨h1, h2⟩

/-- Witness for C2 at the notebook's scalar-covariance parameters
(bounds `[0, 100]` and `[0, 500000]`, `n = 1000`) and at concrete invalid
inputs. -/
theorem sensitivity_spec_witness :
    sensitivity 0 100 0 500000 1000
      = .ok ((100 - 0) * (500000 - 0) / ((1000 : ℚ) - 1))
    ∧ sensitivity 0 100 5 5 1000 = .error .InvalidBounds
    ∧ sensitivity 0 100 0 500000 1 = .error .NonPositiveN :=
  ⟨(sensitivity_spec 0 100 0 500000 1000).1 (by norm_num) (by norm_num)
      (by norm_num),
   (sensitivity_spec 0 100 5 5 1000).2.2.1 (Or.inr (by norm_num)),
   (sensitivity_spec 0 100 0 500000 1).2.2.2 (by norm_num) (by norm_num)
      (by norm_num)⟩

/-- C3.  For every Matrix release over `K ≥ 1` columns and every Cross
release over `L × R` columns (`L, R ≥ 1`), the requested epsilon is divided
evenly — across the `K(K+1)/2` unique unordered cells for Matrix and across
all `L·R` ordered cells for Cross — and the sum of the per-cell epsilon
allocations equals the requested total epsilon exactly, so the epsilon spent
equals the requested epsilon. -/
theorem epsilon_allocation_exact (K L R : ℕ) (eps : ℚ)
    (hK : 0 < K) (hL : 0 < L) (hR : 0 < R) :
    matrixEpsSpent K eps = eps ∧ crossEpsSpent L R eps = eps := by
  constructor
  · have hcard : 0 < K * (K + 1) / 2 := by
      apply Nat.div_pos _ (by norm_num)
      calc 2 = 1 * 2 := by norm_num
        _ ≤ K * (K + 1) := Nat.mul_le_mul hK (by omega)
    have hne : ((K * (K + 1) / 2 : ℕ) : ℚ) ≠ 0 :=
      Nat.cast_ne_zero.mpr (by omega)
    rw [matrixEpsSpent, Finset.sum_const, uniqueCells_card, nsmul_eq_mul,
      matrixCellEps, mul_comm]
    exact div_mul_cancel₀ eps hne
  · have hcard : 0 < L * R := Nat.mul_pos hL hR
    have hne : ((L * R : ℕ) : ℚ) ≠ 0 :=
      Nat.cast_ne_zero.mpr (by omega)
    rw [crossEpsSpent, Finset.sum_const, Finset.card_univ, Fintype.card_prod,
      Fintype.card_fin, Fintype.card_fin, nsmul_eq_mul, crossCellEps,
      Nat.cast_mul, mul_comm, ← Nat.cast_mul]
    exact div_mul_cancel₀ eps hne

/-- Witness for C3 at the notebook's matrix release (`K = 2`) and cross
release (`L = R = 2`) with `ε = 5000`. -/
theorem epsilon_allocation_exact_witness :
    matrixEpsSpent 2 5000 = 5000 ∧ crossEpsSpent 2 2 5000 = 5000 :=
  epsilon_allocation_exact 2 2 2 5000 (by norm_num) (by norm_num) (by norm_num)

/-- C4.  `computeCross` draws one independent noise value per ordered cell,
so even when the left and right datasets are the same underlying data there
are noise draws under which `result i j ≠ result j i`: the output is not
guaranteed symmetric, unlike `computeMatrix`. -/
theorem computeCross_not_symmetric (K : ℕ) (lo hi : Fin K → ℚ)
    (rows : List (Fin K → ℚ)) (i j : Fin K) (hij : i ≠ j) :
    ∃ noise : Fin K → Fin K → ℚ,
      computeCross K K lo hi lo hi rows rows noise i j
        ≠ computeCross K K lo hi lo hi rows rows noise j i := by
  refine ⟨fun a b => if a = i ∧ b = j then 0 else 1, ?_⟩
  have hlen : (clampedCol (lo i) (hi i) (matrixCols K rows i)).length
      = (clampedCol (lo j) (hi j) (matrixCols K rows j)).length := by
    rw [clampedCol_length, clampedCol_length, matrixCols_length, matrixCols_length]
  have hc := sampleCov_comm _ _ hlen
  unfold computeCross
  rw [hc]
  intro hcon
  have h2 := add_left_cancel hcon
  simp [Ne.symm hij] at h2

/-- Witness for C4: a concrete two-column dataset used as both the left and
right operand of a cross-covariance release. -/
theorem computeCross_not_symmetric_witness :
    ∃ noise : Fin 2 → Fin 2 → ℚ,
      computeCross 2 2 (fun _ => 0) (fun _ => 1) (fun _ => 0) (fun _ => 1)
          [fun _ => 0, fun k => k] [fun _ => 0, fun k => k] noise 0 1
        ≠ computeCross 2 2 (fun _ => 0) (fun _ => 1) (fun _ => 0) (fun _ => 1)
          [fun _ => 0, fun k => k] [fun _ => 0, fun k => k] noise 1 0 :=
  computeCross_not_symmetric 2 (fun _ => 0) (fun _ => 1)
    [fun _ => 0, fun k => k] 0 1 (by decide)

/-- C5.  Whenever a global cap is configured and the accountant currently
satisfies its invariants (`cumulative ≤ cap`, `cumulative` is the sum of the
added node epsilons), then after any `addNode` call: the invariant
`cumulative ≤ cap` still holds; a call whose epsilon would push the
cumulative sum above the cap fails with `BudgetExceeded` leaving the
accountant (nodes and cumulative) unchanged; otherwise a positive-epsilon
node is appended and `cumulative` becomes the sum of all added node
epsilons. -/
theorem addNode_budget_invariant (a : Accountant) (eps c : ℚ)
    (hcap : a.cap = some c) (hinv : a.cumulative ≤ c)
    (hsum : a.cumulative = a.nodes.sum) :
    (addNode a eps).2.cumulative ≤ c
    ∧ (0 < eps → c < a.cumulative + eps →
        addNode a eps = (some .BudgetExceeded, a))
    ∧ (0 < eps → a.cumulative + eps ≤ c →
        addNode a eps = (none, { a with nodes := a.nodes ++ [eps],
                                        cumulative := a.cumulative + eps }))
    ∧ (addNode a eps).2.cumulative = (addNode a eps).2.nodes.sum := by
  unfold addNode
  rw [hcap]
  by_cases h0 : eps ≤ 0
  · rw [if_pos h0]
    exact ⟨hinv, fun hpos _ => absurd h0 (not_le.mpr hpos),
      fun hpos _ => absurd h0 (not_le.mpr hpos), hsum⟩
  · rw [if_neg h0]
    by_cases hover : c < a.cumulative + eps
    · simp only [if_pos hover]
      exact ⟨hinv, fun _ _ => trivial,
        fun _ hle => absurd hover (not_lt.mpr hle), hsum⟩
    · simp only [if_neg hover]
      refine ⟨not_lt.mp hover, fun _ hcon => absurd hcon hover,
        fun _ _ => trivial, ?_⟩
      simp [List.sum_append, hsum]

/-- Witness for C5: a cap of `1`, an empty accountant, and a request for
`ε = 2` is rejected with `BudgetExceeded` and leaves the accountant
unchanged. -/
theorem addNode_budget_invariant_witness :
    addNode ⟨some 1, [], 0⟩ 2 = (some .BudgetExceeded, ⟨some 1, [], 0⟩) :=
  (addNode_budget_invariant ⟨some 1, [], 0⟩ 2 1 rfl (by norm_num) rfl).2.1
    (by norm_num) (by norm_num)

/-- If some pending node fails to evaluate, evaluating the whole pending list
fails. -/
theorem evalAll_error_of_mem {α β : Type} (f : α → Except DPError β)
    (l : List α) (r : α) (e : DPError) (hr : r ∈ l) (he : f r = .error e) :
    ∃ eTop, evalAll f l = .error eTop := by
  induction l with
  | nil => cases hr
  | cons x xs ih =>
    rcases List.mem_cons.mp hr with rfl | hx
    · exact ⟨e, by rw [evalAll, he]⟩
    · rw [evalAll]
      cases hfx : f x with
      | error e2 => exact ⟨e2, rfl⟩
      | ok b =>
        obtain ⟨eTop, hTop⟩ := ih hx
        exact ⟨eTop, by rw [hTop]⟩

/-- When the session is building and some pending node fails, `release`
returns that failure and the session entirely unchanged. -/
theorem release_error_eq {α β : Type} (f : α → Except DPError β)
    (s : Session α β) (e : DPError) (hb : s.state = .Building)
    (he : evalAll f s.pending = .error e) :
    release f s = (some e, s) := by
  rw [release, hb, he]

/-- When the session is building and every pending node evaluates, `release`
succeeds and transitions the session to `Released` with the collected
releases. -/
theorem release_ok_eq {α β : Type} (f : α → Except DPError β)
    (s : Session α β) (rs : List β) (hb : s.state = .Building)
    (hok : evalAll f s.pending = .ok rs) :
    release f s = (none, { s with state := .Released, releases := rs }) := by
  rw [release, hb, hok]

/-- C6.  `release()` is all-or-nothing: if evaluation of any pending node
fails, the entire operation fails and the session is returned unchanged —
still `Building`, with no Release objects made visible; if every node
evaluates successfully, the session transitions atomically from `Building` to
`Released` carrying all collected Release objects. -/
theorem release_all_or_nothing {α β : Type} (f : α → Except DPError β)
    (s : Session α β) (hb : s.state = .Building) :
    ((∃ r ∈ s.pending, ∃ e, f r = .error e) →
      ∃ eTop, release f s = (some eTop, s))
    ∧ (∀ e, evalAll f s.pending = .error e → release f s = (some e, s))
    ∧ (∀ rs, evalAll f s.pending = .ok rs →
        release f s = (none, { s with state := .Released, releases := rs })) := by
  refine ⟨?_, fun e he => release_error_eq f s e hb he,
    fun rs hok => release_ok_eq f s rs hb hok⟩
  rintro ⟨r, hr, e, he⟩
  obtain ⟨eTop, hTop⟩ := evalAll_error_of_mem f s.pending r e hr he
  exact ⟨eTop, release_error_eq f s eTop hb hTop⟩

/-- Witness for C6: a building session with one failing node — the release
fails and the session is unchanged; and a building session whose single node
evaluates — the release succeeds atomically. -/
theorem release_all_or_nothing_witness :
    (∃ eTop, release (fun n : ℕ => if n = 0 then .error .ConfigurationError
        else .ok n)
      ⟨.Building, ⟨none, [], 0⟩, [0], []⟩
      = (some eTop, ⟨.Building, ⟨none, [], 0⟩, [0], []⟩))
    ∧ release (fun n : ℕ => if n = 0 then .error .ConfigurationError
        else .ok n)
      ⟨.Building, ⟨none, [], 0⟩, [7], []⟩
      = (none, ⟨.Released, ⟨none, [], 0⟩, [7], [7]⟩) :=
  ⟨(release_all_or_nothing _ ⟨.Building, ⟨none, [], 0⟩, [0], []⟩ rfl).1
      ⟨0, by decide, .ConfigurationError, rfl⟩,
   (release_all_or_nothing _ ⟨.Building, ⟨none, [], 0⟩, [7], []⟩ rfl).2.2
      [7] rfl⟩

/-- C7.  After a successful release, calling `release()` again fails with
`DoubleReleaseError` and the Release values produced by the first call are
unchanged and still held by the session; likewise `addRequest` after release
fails with `SessionAlreadyReleased`. -/
theorem double_release_rejected {α β : Type} (f : α → Except DPError β)
    (s : Session α β) (rs : List β) (epsOf : α → ℚ) (req : α)
    (hb : s.state = .Building) (hok : evalAll f s.pending = .ok rs) :
    release f (release f s).2 = (some .DoubleReleaseError, (release f s).2)
    ∧ (release f (release f s).2).2.releases = rs
    ∧ addRequest epsOf (release f s).2 req
        = (some .SessionAlreadyReleased, (release f s).2) := by
  have h1 := release_ok_eq f s rs hb hok
  rw [h1]
  exact ⟨rfl, rfl, rfl⟩

/-- Witness for C7: a concrete building session whose single node evaluates;
the second release fails with `DoubleReleaseError` keeping the first call's
Release values, and a later `addRequest` fails with
`SessionAlreadyReleased`. -/
theorem double_release_rejected_witness :
    release (fun n : ℕ => Except.ok n)
        (release (fun n : ℕ => Except.ok n)
          ⟨.Building, ⟨none, [], 0⟩, [7], []⟩).2
      = (some .DoubleReleaseError,
         (release (fun n : ℕ => Except.ok n)
          ⟨.Building, ⟨none, [], 0⟩, [7], []⟩).2)
    ∧ (release (fun n : ℕ => Except.ok n)
        (release (fun n : ℕ => Except.ok n)
          ⟨.Building, ⟨none, [], 0⟩, [7], []⟩).2).2.releases = [7]
    ∧ addRequest (fun n : ℕ => (n : ℚ))
        (release (fun n : ℕ => Except.ok n)
          ⟨.Building, ⟨none, [], 0⟩, [7], []⟩).2 5
      = (some .SessionAlreadyReleased,
         (release (fun n : ℕ => Except.ok n)
          ⟨.Building, ⟨none, [], 0⟩, [7], []⟩).2) :=
  double_release_rejected (fun n : ℕ => Except.ok n)
    ⟨.Building, ⟨none, [], 0⟩, [7], []⟩ [7] (fun n : ℕ => (n : ℚ)) 5 rfl rfl

/-- C8.  Post-processing of released values is deterministic and pure:
computing the correlation matrix (and the regression-coefficient ratio) from
a fixed released covariance matrix twice yields identical results, and the
output is a function of the released values alone (two runs over equal
released values agree); no raw-data or budget argument even exists in the
computation. -/
theorem postprocessing_deterministic_pure (sq : ℚ → ℚ) (K : ℕ)
    (cov cov2 : Fin K → Fin K → FV) (h : cov = cov2)
    (cov5 cov5b : Fin 5 → Fin 5 → FV) (h5 : cov5 = cov5b) :
    dp_corr sq K cov = dp_corr sq K cov
    ∧ dp_corr sq K cov = dp_corr sq K cov2
    ∧ beta_hat_dp cov5 = beta_hat_dp cov5
    ∧ beta_hat_dp cov5 = beta_hat_dp cov5b := by
  subst h
  subst h5
  exact ⟨rfl, rfl, rfl, rfl⟩

/-- Witness for C8 at a concrete released matrix. -/
theorem postprocessing_deterministic_pure_witness :
    dp_corr (fun q => q) 1 (fun _ _ => .fin 1)
      = dp_corr (fun q => q) 1 (fun _ _ => .fin 1)
    ∧ beta_hat_dp (fun _ _ => .fin 1) = beta_hat_dp (fun _ _ => .fin 1) :=
  ⟨(postprocessing_deterministic_pure (fun q => q) 1 (fun _ _ => .fin 1)
      (fun _ _ => .fin 1) rfl (fun _ _ => .fin 1) (fun _ _ => .fin 1) rfl).1,
   (postprocessing_deterministic_pure (fun q => q) 1 (fun _ _ => .fin 1)
      (fun _ _ => .fin 1) rfl (fun _ _ => .fin 1) (fun _ _ => .fin 1) rfl).2.2.1⟩

/-- NaN absorbs multiplication on the left. -/
theorem fmul_nan_left (x : FV) : fmul .nan x = .nan := by
  cases x <;> rfl

/-- NaN absorbs multiplication on the right. -/
theorem fmul_nan_right (x : FV) : fmul x .nan = .nan := by
  cases x <;> rfl

/-- NaN absorbs division on the right. -/
theorem fdiv_nan_right (x : FV) : fdiv x .nan = .nan := by
  cases x <;> rfl

/-- C9.  For every released covariance matrix whose diagonal entry at index
`i` is finite and negative (possible after noise addition), `np.sqrt` of
that entry is NaN and consequently every entry in row `i` and column `i` of
the resulting correlation matrix is NaN; the computation is total (no error
is raised) and the NaN values propagate silently. -/
theorem dp_corr_nan_row_col (sq : ℚ → ℚ) (K : ℕ) (cov : Fin K → Fin K → FV)
    (i : Fin K) (q : ℚ) (hq : cov i i = .fin q) (hneg : q < 0) :
    (fsqrt sq (cov i i)).isNaN = true
    ∧ ∀ j, (dp_corr sq K cov i j).isNaN = true
        ∧ (dp_corr sq K cov j i).isNaN = true := by
  have hs : fsqrt sq (cov i i) = .nan := by
    rw [hq]
    simp [fsqrt, hneg]
  refine ⟨by rw [hs]; rfl, fun j => ⟨?_, ?_⟩⟩
  · simp only [dp_corr]
    rw [hs, fmul_nan_left, fdiv_nan_right]
    rfl
  · simp only [dp_corr]
    rw [hs, fmul_nan_right, fdiv_nan_right]
    rfl

/-- Witness for C9: a released `2×2` matrix whose `(0,0)` entry is `-1`. -/
theorem dp_corr_nan_row_col_witness :
    (dp_corr (fun q => q) 2 (fun _ _ => .fin (-1)) 0 1).isNaN = true
    ∧ (dp_corr (fun q => q) 2 (fun _ _ => .fin (-1)) 1 0).isNaN = true :=
  ⟨((dp_corr_nan_row_col (fun q => q) 2 (fun _ _ => .fin (-1)) 0 (-1) rfl
      (by norm_num)).2 1).1,
   ((dp_corr_nan_row_col (fun q => q) 2 (fun _ _ => .fin (-1)) 0 (-1) rfl
      (by norm_num)).2 1).2⟩

/-- C10.  The regression-coefficient post-processing divides the released
covariance cell by the released (noised) variance cell with no guard: it
computes `dp_cov[2,3] / dp_cov[2,2]` unconditionally; when the noised
variance is zero the result is an infinity or NaN rather than an error, and
when it is negative the coefficient's sign is silently flipped (a positive
released covariance yields a negative coefficient and conversely). -/
theorem beta_hat_dp_unguarded (cov : Fin 5 → Fin 5 → FV) (a b : ℚ)
    (ha : cov 2 3 = .fin a) :
    beta_hat_dp cov = fdiv (cov 2 3) (cov 2 2)
    ∧ (cov 2 2 = .fin 0 →
        beta_hat_dp cov = if a = 0 then .nan else .inf (decide (0 < a)))
    ∧ (cov 2 2 = .fin b → b < 0 →
        beta_hat_dp cov = .fin (a / b)
        ∧ (0 < a → a / b < 0) ∧ (a < 0 → 0 < a / b)) := by
  refine ⟨rfl, ?_, ?_⟩
  · intro h22
    rw [beta_hat_dp, ha, h22]
    simp [fdiv]
  · intro h22 hb
    have hbne : b ≠ 0 := ne_of_lt hb
    rw [beta_hat_dp, ha, h22]
    exact ⟨by simp [fdiv, hbne],
      fun hapos => div_neg_of_pos_of_neg hapos hb,
      fun haneg => div_pos_of_neg_of_neg haneg hb⟩

/-- Witness for C10: a released matrix with covariance cell `6` and a
negative noised variance cell `-2`; the computed coefficient is `6 / (-2)`,
which is negative although the released covariance is positive. -/
theorem beta_hat_dp_unguarded_witness :
    beta_hat_dp (fun _ j => if j = 3 then .fin 6 else .fin (-2))
      = .fin (6 / (-2 : ℚ))
    ∧ (6 : ℚ) / (-2) < 0 :=
  ⟨((beta_hat_dp_unguarded (fun _ j => if j = 3 then .fin 6 else .fin (-2))
      6 (-2) rfl).2.2 rfl (by norm_num)).1,
   ((beta_hat_dp_unguarded (fun _ j => if j = 3 then .fin 6 else .fin (-2))
      6 (-2) rfl).2.2 rfl (by norm_num)).2.1 (by norm_num)⟩
